import Mathlib

/-!
Verification of the `buff` circular "seen-before" buffer of the rabbitmq
repository.  The definitions below embed the implementation of package `buff`
in `src/buff/buff_test.go` (the document holding `Init`, `Add`, `Test`,
`testRecent`, `testOldest`, `Reset`, `GetRecent`, `GetOldest`): slots are Go
byte slices (`[][]byte`), a never-written or reset slot is the nil slice, and
comparisons go through `bytes.Equal`, for which a nil argument is equivalent
to an empty slice.  The `sync.RWMutex` field only guards concurrent access
and has no sequential semantics, so it is not part of the state.
-/

/-- A Go byte slice: `none` is the nil slice, `some l` a (possibly empty)
slice holding the bytes `l`. -/
abbrev BSlice := Option (List Nat)

/-- `bytes.Equal`: true when the two slices hold the same bytes; a nil
argument is equivalent to an empty slice. -/
def bytesEqual (a b : BSlice) : Bool :=
  decide (a.getD [] = b.getD [])

/-- The construction errors of the source: `errSize` ("size of buff must be
greater than 0") and `errMode` ("invalid search mode specified"). -/
inductive BuffError where
  | errSize
  | errMode
deriving DecidableEq

/-- `Mode` represents the search mode (a `uint8` in the source). -/
abbrev Mode := Nat

/-- `Recent` searches the buffer from the most recent to oldest element. -/
def Recent : Mode := 0

/-- `Oldest` searches the buffer from the oldest to most recent element. -/
def Oldest : Mode := 1

/-- The `Buff` struct: `size` of the buffer, search `mode`, pointer `ptr` to
the slot the next `Add` writes, and the byte store `data`. -/
structure Buff where
  size : Nat
  mode : Mode
  ptr : Nat
  data : List BSlice
deriving DecidableEq

/-- The buffer `Init` builds on success: `ptr = 0` and `data` a fresh
`make([][]byte, size)`, i.e. `size` nil slices. -/
def mkBuff (n : Nat) (m : Mode) : Buff :=
  { size := n, mode := m, ptr := 0, data := List.replicate n none }

/-- `Init(size, mode)`: fails with `errSize` when `size < 1`, with `errMode`
when `mode != 0 && mode != 1`, and otherwise returns the all-nil buffer with
`ptr = 0`. -/
def Init (size : Int) (mode : Mode) : Except BuffError Buff :=
  if size < 1 then .error .errSize
  else if mode ≠ 0 ∧ mode ≠ 1 then .error .errMode
  else .ok (mkBuff size.toNat mode)

/-- `Add(data)`: stores `data` (which may itself be nil) in the slot at `ptr`,
increments `ptr`, and wraps it back to 0 when it reaches `size`. -/
def Buff.Add (b : Buff) (data : BSlice) : Buff :=
  { b with data := b.data.set b.ptr data,
           ptr := if b.ptr + 1 = b.size then 0 else b.ptr + 1 }

/-- `Reset()`: replaces `data` with a fresh `make([][]byte, size)` (all nil)
and sets `ptr = 0`. -/
def Buff.Reset (b : Buff) : Buff :=
  { b with data := List.replicate b.size none, ptr := 0 }

/-- `testRecent(key)`: scans `ptr-1` down to `0`, then `size-1` down to `ptr`,
returning true on the first slot with `bytes.Equal(key, data[i])`. -/
def testRecent (b : Buff) (key : BSlice) : Bool :=
  ((List.range b.ptr).reverse ++
    ((List.range (b.size - b.ptr)).map (fun j => b.ptr + j)).reverse).any
    (fun i => bytesEqual key (b.data.getD i none))

/-- `testOldest(key)`: scans `ptr` up to `size-1`, then `0` up to `ptr-1`,
returning true on the first slot with `bytes.Equal(key, data[i])`. -/
def testOldest (b : Buff) (key : BSlice) : Bool :=
  ((List.range (b.size - b.ptr)).map (fun j => b.ptr + j) ++
    List.range b.ptr).any
    (fun i => bytesEqual key (b.data.getD i none))

/-- `Test(key)`: dispatches to `testOldest` when the mode is `Oldest`, and to
`testRecent` otherwise. -/
def Buff.Test (b : Buff) (key : BSlice) : Bool :=
  if b.mode = Oldest then testOldest b key else testRecent b key

/-- `GetRecent()`: when `ptr = 0` it reads `data[size-1]`, returning nil
explicitly for a nil slot and a copy otherwise; when `ptr > 0` it copies
`data[ptr-1]` without a nil check, so a nil slot comes back as a non-nil
empty slice (`make([]byte, 0)`). -/
def Buff.GetRecent (b : Buff) : BSlice :=
  if b.ptr = 0 then
    b.data.getD (b.size - 1) none
  else
    some ((b.data.getD (b.ptr - 1) none).getD [])

/-- `GetOldest()`: scans `ptr` up to `size-1`, then `0` up to `ptr-1`, and
returns a copy of the first non-nil slot; nil is returned if all of the data
is nil. -/
def Buff.GetOldest (b : Buff) : BSlice :=
  ((List.range (b.size - b.ptr)).map (fun j => b.ptr + j) ++
    List.range b.ptr).findSome?
    (fun i => b.data.getD i none)

/-- Folding a sequence of `Add` calls over a buffer. -/
def AddAll (b : Buff) (rs : List BSlice) : Buff :=
  rs.foldl Buff.Add b

/-- The structural invariant maintained by every operation: the pointer is in
range and the store has exactly `size` slots. -/
def Valid (b : Buff) : Prop :=
  b.ptr < b.size ∧ b.data.length = b.size

/-- States reachable from a successful `Init` by `Add` and `Reset` (the read
operations do not mutate the buffer). -/
inductive Reachable : Buff → Prop where
  | init : ∀ size mode b, Init size mode = .ok b → Reachable b
  | add : ∀ b r, Reachable b → Reachable (b.Add r)
  | reset : ∀ b, Reachable b → Reachable b.Reset

example : (mkBuff 3 Recent).Test (some [5]) = false := by decide
example : (mkBuff 3 Recent).Test (some []) = true := by decide
example : (mkBuff 3 Recent).Test none = true := by decide
example : ((mkBuff 3 Recent).Add (some [5])).Test (some [5]) = true := by decide
example : (AddAll (mkBuff 2 Recent) [some [1], some [2], some [3]]).Test (some [1]) = false := by
  decide
example : (AddAll (mkBuff 2 Recent) [some [1], some [2], some [3]]).Test (some [3]) = true := by
  decide
example : (AddAll (mkBuff 2 Oldest) [some [1], some [2], some [3]]).GetRecent = some [3] := by
  decide
example : (AddAll (mkBuff 2 Oldest) [some [1], some [2], some [3]]).GetOldest = some [2] := by
  decide
example : (AddAll (mkBuff 3 Oldest) [some [1], some [2]]).GetOldest = some [1] := by decide
example : (mkBuff 3 Recent).GetRecent = none := by decide
example : ((mkBuff 2 Recent).Add none).GetRecent = some [] := by decide
example : Init 0 Recent = .error .errSize := rfl
example : Init (-1) Recent = .error .errSize := rfl
example : Init 1 2 = .error .errMode := rfl
example : Init 1 Recent = .ok (mkBuff 1 Recent) := rfl

/-! ### Basic preservation lemmas -/

lemma Add_size (b : Buff) (r : BSlice) : (b.Add r).size = b.size := rfl

lemma Add_mode (b : Buff) (r : BSlice) : (b.Add r).mode = b.mode := rfl

lemma Add_data (b : Buff) (r : BSlice) : (b.Add r).data = b.data.set b.ptr r := rfl

lemma Add_data_length (b : Buff) (r : BSlice) :
    (b.Add r).data.length = b.data.length := by
  rw [Add_data, List.length_set]

lemma Add_ptr (b : Buff) (r : BSlice) (h : b.ptr < b.size) :
    (b.Add r).ptr = (b.ptr + 1) % b.size := by
  show (if b.ptr + 1 = b.size then 0 else b.ptr + 1) = (b.ptr + 1) % b.size
  by_cases h1 : b.ptr + 1 = b.size
  · rw [if_pos h1, h1, Nat.mod_self]
  · rw [if_neg h1, Nat.mod_eq_of_lt (by omega)]

lemma Add_ptr_lt (b : Buff) (r : BSlice) (h : b.ptr < b.size) :
    (b.Add r).ptr < (b.Add r).size := by
  rw [Add_size, Add_ptr b r h]
  exact Nat.mod_lt _ (by omega)

lemma AddAll_nil (b : Buff) : AddAll b [] = b := rfl

lemma AddAll_cons (b : Buff) (r : BSlice) (rs : List BSlice) :
    AddAll b (r :: rs) = AddAll (b.Add r) rs := rfl

lemma AddAll_append (b : Buff) (rs ts : List BSlice) :
    AddAll b (rs ++ ts) = AddAll (AddAll b rs) ts := by
  simp [AddAll]

lemma AddAll_size : ∀ (rs : List BSlice) (b : Buff), (AddAll b rs).size = b.size
  | [], _ => rfl
  | r :: rs, b => by rw [AddAll_cons, AddAll_size rs, Add_size]

lemma AddAll_mode : ∀ (rs : List BSlice) (b : Buff), (AddAll b rs).mode = b.mode
  | [], _ => rfl
  | r :: rs, b => by rw [AddAll_cons, AddAll_mode rs, Add_mode]

lemma AddAll_data_length : ∀ (rs : List BSlice) (b : Buff),
    (AddAll b rs).data.length = b.data.length
  | [], _ => rfl
  | r :: rs, b => by rw [AddAll_cons, AddAll_data_length rs, Add_data_length]

lemma Valid_Add (b : Buff) (r : BSlice) (h : Valid b) : Valid (b.Add r) := by
  obtain ⟨hcur, hlen⟩ := h
  refine ⟨Add_ptr_lt b r hcur, ?_⟩
  rw [Add_data_length, Add_size]
  exact hlen

lemma Valid_AddAll (rs : List BSlice) (b : Buff) (h : Valid b) :
    Valid (AddAll b rs) := by
  induction rs generalizing b with
  | nil => exact h
  | cons r rs ih => rw [AddAll_cons]; exact ih _ (Valid_Add b r h)

lemma Valid_mkBuff (n : Nat) (m : Mode) (h : 1 ≤ n) : Valid (mkBuff n m) :=
  ⟨h, List.length_replicate _ _⟩

lemma AddAll_ptr : ∀ (rs : List BSlice) (b : Buff), b.ptr < b.size →
    (AddAll b rs).ptr = (b.ptr + rs.length) % b.size
  | [], b, h => by
      rw [AddAll_nil, List.length_nil, Nat.add_zero, Nat.mod_eq_of_lt h]
  | r :: rs, b, h => by
      rw [AddAll_cons, AddAll_ptr rs (b.Add r) (Add_ptr_lt b r h), Add_size,
        Add_ptr b r h, Nat.mod_add_mod]
      congr 1
      simp [Nat.add_assoc, Nat.add_comm 1 rs.length]

/-! ### Slot access helpers -/

lemma getD_set_self {α : Type} {l : List α} {i : Nat} {v d : α}
    (h : i < l.length) : (l.set i v).getD i d = v := by
  simp [List.getD_eq_getElem?_getD, List.getElem?_set_self h]

lemma getD_set_ne {α : Type} {l : List α} {i j : Nat} (h : i ≠ j)
    {v d : α} : (l.set i v).getD j d = l.getD j d := by
  simp [List.getD_eq_getElem?_getD, List.getElem?_set_ne h]

lemma getD_replicate {α : Type} {n i : Nat} {x : α} :
    (List.replicate n x).getD i x = x := by
  rw [List.getD_eq_getElem?_getD, List.getElem?_replicate]
  split <;> rfl

lemma getD_append_left {α : Type} {l1 l2 : List α} {i : Nat} {d : α}
    (h : i < l1.length) : (l1 ++ l2).getD i d = l1.getD i d := by
  simp [List.getD_eq_getElem?_getD, List.getElem?_append_left h]

lemma getD_append_right {α : Type} {l1 l2 : List α} {i : Nat} {d : α}
    (h : l1.length ≤ i) : (l1 ++ l2).getD i d = l2.getD (i - l1.length) d := by
  simp [List.getD_eq_getElem?_getD, List.getElem?_append_right h]

lemma getD_mem_of_lt {α : Type} {l : List α} {p : Nat} {d : α}
    (h : p < l.length) : l.getD p d ∈ l := by
  rw [List.getD_eq_getElem?_getD, List.getElem?_eq_getElem h]
  exact List.getElem_mem h

lemma mem_exists_getD {α : Type} {l : List α} {x : α} (d : α) (h : x ∈ l) :
    ∃ p, p < l.length ∧ l.getD p d = x := by
  obtain ⟨p, hp, rfl⟩ := List.mem_iff_getElem.mp h
  refine ⟨p, hp, ?_⟩
  rw [List.getD_eq_getElem?_getD, List.getElem?_eq_getElem hp]
  rfl

/-! ### Scan-order permutations -/

lemma perm_scan_range (size ptr : Nat) (h : ptr ≤ size) :
    ((List.range (size - ptr)).map (fun j => ptr + j) ++
      List.range ptr).Perm (List.range size) := by
  refine List.perm_append_comm.trans ?_
  have hsplit : List.range size =
      List.range ptr ++ (List.range (size - ptr)).map (fun j => ptr + j) := by
    conv_lhs => rw [show size = ptr + (size - ptr) by omega]
    rw [List.range_add]
  rw [hsplit]

lemma perm_recent_oldest (size ptr : Nat) :
    ((List.range ptr).reverse ++
      ((List.range (size - ptr)).map (fun j => ptr + j)).reverse).Perm
    ((List.range (size - ptr)).map (fun j => ptr + j) ++ List.range ptr) :=
  (((List.range ptr).reverse_perm.append
    ((List.range (size - ptr)).map (fun j => ptr + j)).reverse_perm).trans
    List.perm_append_comm)

lemma any_eq_of_perm {l1 l2 : List Nat} (h : l1.Perm l2) (p : Nat → Bool) :
    l1.any p = l2.any p := by
  cases hb : l2.any p
  · rw [List.any_eq_false] at hb ⊢
    exact fun x hx => hb x (h.mem_iff.mp hx)
  · rw [List.any_eq_true] at hb ⊢
    obtain ⟨x, hx, hpx⟩ := hb
    exact ⟨x, h.mem_iff.mpr hx, hpx⟩

/-! ### Membership-test characterization -/

lemma testRecent_eq_testOldest (b : Buff) (key : BSlice) :
    testRecent b key = testOldest b key :=
  any_eq_of_perm (perm_recent_oldest b.size b.ptr) _

lemma Test_eq_testOldest (b : Buff) (key : BSlice) :
    b.Test key = testOldest b key := by
  unfold Buff.Test
  by_cases h : b.mode = Oldest
  · rw [if_pos h]
  · rw [if_neg h]
    exact testRecent_eq_testOldest b key

lemma Test_eq_true_iff (b : Buff) (key : BSlice) (h : b.ptr ≤ b.size) :
    b.Test key = true ↔
      ∃ j, j < b.size ∧ bytesEqual key (b.data.getD j none) = true := by
  rw [Test_eq_testOldest]
  unfold testOldest
  rw [List.any_eq_true]
  constructor
  · rintro ⟨i, hi, hp⟩
    have hmem : i ∈ List.range b.size :=
      (perm_scan_range b.size b.ptr h).mem_iff.mp hi
    exact ⟨i, List.mem_range.mp hmem, hp⟩
  · rintro ⟨j, hj, hs⟩
    exact ⟨j, (perm_scan_range b.size b.ptr h).mem_iff.mpr (List.mem_range.mpr hj), hs⟩

lemma Test_eq_false_iff (b : Buff) (key : BSlice) (h : b.ptr ≤ b.size) :
    b.Test key = false ↔
      ∀ j, j < b.size → ¬ bytesEqual key (b.data.getD j none) = true := by
  rw [← Bool.not_eq_true, Test_eq_true_iff b key h]
  push_neg
  rfl

/-! ### Modular arithmetic helpers -/

lemma add_mod_ne_self {c d n : Nat} (hc : c < n) (hd0 : 0 < d) (hdn : d < n) :
    (c + d) % n ≠ c := by
  intro h
  have h1 : Nat.ModEq n c (c + d) := by
    unfold Nat.ModEq
    rw [h, Nat.mod_eq_of_lt hc]
  have h2 : n ∣ d := by
    have hdvd := (Nat.modEq_iff_dvd' (Nat.le_add_right c d)).mp h1
    simpa using hdvd
  exact absurd (Nat.le_of_dvd hd0 h2) (Nat.not_le.mpr hdn)

lemma exists_offset_of_lt (c N j : Nat) (hc : c < N) (hj : j < N) :
    ∃ p, p < N ∧ (c + p) % N = j := by
  refine ⟨(N + j - c) % N, Nat.mod_lt _ (by omega), ?_⟩
  rw [Nat.add_mod_mod]
  have h1 : c + (N + j - c) = N + j := by omega
  rw [h1, Nat.add_mod_left]
  exact Nat.mod_eq_of_lt hj

/-! ### Slot contents after a sequence of insertions -/

lemma AddAll_getD_of_not_written :
    ∀ (rs : List BSlice) (b : Buff) (j : Nat),
      b.data.length = b.size → b.ptr < b.size →
      (∀ p, p < rs.length → (b.ptr + p) % b.size ≠ j) →
      (AddAll b rs).data.getD j none = b.data.getD j none
  | [], _, _, _, _, _ => rfl
  | r :: rs, b, j, hlen, hcur, hj => by
      rw [AddAll_cons]
      have hcur2 : (b.Add r).ptr < (b.Add r).size := Add_ptr_lt b r hcur
      have hlen2 : (b.Add r).data.length = (b.Add r).size := by
        rw [Add_data_length, Add_size]; exact hlen
      have hj2 : ∀ p, p < rs.length → ((b.Add r).ptr + p) % (b.Add r).size ≠ j := by
        intro p hp
        rw [Add_size, Add_ptr b r hcur, Nat.mod_add_mod,
          show b.ptr + 1 + p = b.ptr + (p + 1) by omega]
        exact hj (p + 1) (by simpa using Nat.succ_lt_succ hp)
      rw [AddAll_getD_of_not_written rs (b.Add r) j hlen2 hcur2 hj2, Add_data]
      have hne : b.ptr ≠ j := by
        have h0 := hj 0 (Nat.succ_pos _)
        simpa [Nat.mod_eq_of_lt hcur] using h0
      exact getD_set_ne hne

lemma AddAll_getD_of_written :
    ∀ (rs : List BSlice) (b : Buff) (p : Nat),
      p < rs.length → rs.length ≤ b.size →
      b.data.length = b.size → b.ptr < b.size →
      (AddAll b rs).data.getD ((b.ptr + p) % b.size) none = rs.getD p none
  | [], _, p, hp, _, _, _ => absurd hp (by simp)
  | r :: rs, b, 0, _, hle, hlen, hcur => by
      rw [AddAll_cons]
      have hcur2 : (b.Add r).ptr < (b.Add r).size := Add_ptr_lt b r hcur
      have hlen2 : (b.Add r).data.length = (b.Add r).size := by
        rw [Add_data_length, Add_size]; exact hlen
      have hle2 : rs.length + 1 ≤ b.size := by simpa using hle
      rw [show (b.ptr + 0) % b.size = b.ptr by
        rw [Nat.add_zero, Nat.mod_eq_of_lt hcur]]
      have hnw : ∀ q, q < rs.length →
          ((b.Add r).ptr + q) % (b.Add r).size ≠ b.ptr := by
        intro q hq
        rw [Add_size, Add_ptr b r hcur, Nat.mod_add_mod,
          show b.ptr + 1 + q = b.ptr + (q + 1) by omega]
        exact add_mod_ne_self hcur (Nat.succ_pos q) (by omega)
      rw [AddAll_getD_of_not_written rs (b.Add r) b.ptr hlen2 hcur2 hnw, Add_data]
      rw [getD_set_self (hlen ▸ hcur)]
      rfl
  | r :: rs, b, p + 1, hp, hle, hlen, hcur => by
      rw [AddAll_cons]
      have hcur2 : (b.Add r).ptr < (b.Add r).size := Add_ptr_lt b r hcur
      have hlen2 : (b.Add r).data.length = (b.Add r).size := by
        rw [Add_data_length, Add_size]; exact hlen
      have hp2 : p < rs.length := by simpa using Nat.lt_of_succ_lt_succ hp
      have hle2 : rs.length ≤ (b.Add r).size := by
        rw [Add_size]
        exact Nat.le_trans (Nat.le_succ _) (by simpa using hle)
      have harg : ((b.Add r).ptr + p) % (b.Add r).size =
          (b.ptr + (p + 1)) % b.size := by
        rw [Add_size, Add_ptr b r hcur, Nat.mod_add_mod]
        congr 1
        omega
      have hrec := AddAll_getD_of_written rs (b.Add r) p hp2 hle2 hlen2 hcur2
      rw [harg] at hrec
      rw [hrec]
      rfl

/-! ### State after inserting into a fresh buffer -/

lemma fresh_getD_lt (N : Nat) (m : Mode) (rs : List BSlice) (hle : rs.length ≤ N)
    (j : Nat) (hj : j < rs.length) :
    (AddAll (mkBuff N m) rs).data.getD j none = rs.getD j none := by
  have hN : 0 < N := by omega
  have h := AddAll_getD_of_written rs (mkBuff N m) j hj
    (by simpa [mkBuff] using hle) (by simp [mkBuff]) (by simpa [mkBuff] using hN)
  have hidx : ((mkBuff N m).ptr + j) % (mkBuff N m).size = j := by
    show (0 + j) % N = j
    rw [Nat.zero_add]
    exact Nat.mod_eq_of_lt (Nat.lt_of_lt_of_le hj hle)
  rwa [hidx] at h

lemma fresh_getD_ge (N : Nat) (m : Mode) (rs : List BSlice) (hle : rs.length ≤ N)
    (hN : 0 < N) (j : Nat) (hj1 : rs.length ≤ j) :
    (AddAll (mkBuff N m) rs).data.getD j none = none := by
  have hnw : ∀ p, p < rs.length → ((mkBuff N m).ptr + p) % (mkBuff N m).size ≠ j := by
    intro p hp
    show (0 + p) % N ≠ j
    rw [Nat.zero_add, Nat.mod_eq_of_lt (Nat.lt_of_lt_of_le hp hle)]
    omega
  rw [AddAll_getD_of_not_written rs (mkBuff N m) j
    (by simp [mkBuff]) (by simpa [mkBuff] using hN) hnw]
  exact getD_replicate

lemma fresh_ptr (N : Nat) (m : Mode) (rs : List BSlice) (hN : 0 < N) :
    (AddAll (mkBuff N m) rs).ptr = rs.length % N := by
  rw [AddAll_ptr rs _ (by simpa [mkBuff] using hN)]
  simp [mkBuff]

/-! ### findSome? helpers -/

lemma findSome?_append_none {α β : Type} {l1 l2 : List α} {f : α → Option β}
    (h : ∀ a ∈ l1, f a = none) :
    (l1 ++ l2).findSome? f = l2.findSome? f := by
  rw [List.findSome?_append, List.findSome?_eq_none_iff.mpr h]
  rfl

lemma findSome?_range_pos {β : Type} {f : Nat → Option β} {n : Nat} (hn : 0 < n)
    {v : β} (h0 : f 0 = some v) : (List.range n).findSome? f = some v := by
  obtain ⟨k, rfl⟩ : ∃ k, n = k + 1 := ⟨n - 1, by omega⟩
  rw [List.range_succ_eq_map, List.findSome?_cons_of_isSome _ (by rw [h0]; rfl)]
  exact h0

/-! ### Accessor lemmas -/

lemma GetRecent_Add (b : Buff) (r : BSlice) (hv : Valid b) :
    bytesEqual (b.Add r).GetRecent r = true := by
  obtain ⟨hcur, hlen⟩ := hv
  unfold Buff.GetRecent
  by_cases h : b.ptr + 1 = b.size
  · have hp0 : (b.Add r).ptr = 0 := by
      show (if b.ptr + 1 = b.size then 0 else b.ptr + 1) = 0
      rw [if_pos h]
    rw [hp0, if_pos rfl, Add_data, Add_size,
      show b.size - 1 = b.ptr by omega, getD_set_self (hlen ▸ hcur)]
    simp [bytesEqual]
  · have hp : (b.Add r).ptr = b.ptr + 1 := by
      show (if b.ptr + 1 = b.size then 0 else b.ptr + 1) = b.ptr + 1
      rw [if_neg h]
    rw [hp, if_neg (by omega), Add_data, Nat.add_sub_cancel,
      getD_set_self (hlen ▸ hcur)]
    simp [bytesEqual]

lemma GetOldest_fresh (N : Nat) (m : Mode) (rs : List BSlice) (h1 : 1 ≤ rs.length)
    (hle : rs.length ≤ N) (hnn : rs.getD 0 none ≠ none) :
    (AddAll (mkBuff N m) rs).GetOldest = rs.getD 0 none := by
  have hN : 0 < N := Nat.lt_of_lt_of_le h1 hle
  have hsize : (AddAll (mkBuff N m) rs).size = N := AddAll_size rs _
  have hptr := fresh_ptr N m rs hN
  obtain ⟨l, hl⟩ := Option.ne_none_iff_exists'.mp hnn
  have hf0 : (AddAll (mkBuff N m) rs).data.getD 0 none = some l := by
    rw [fresh_getD_lt N m rs hle 0 h1, hl]
  unfold Buff.GetOldest
  rw [hsize, hptr, hl]
  by_cases hk : rs.length < N
  · rw [Nat.mod_eq_of_lt hk]
    have hnone : ∀ a ∈ (List.range (N - rs.length)).map (fun j => rs.length + j),
        (AddAll (mkBuff N m) rs).data.getD a none = none := by
      intro a ha
      obtain ⟨j, hj, rfl⟩ := List.mem_map.mp ha
      exact fresh_getD_ge N m rs hle hN _ (Nat.le_add_right _ _)
    rw [findSome?_append_none hnone]
    exact findSome?_range_pos h1 hf0
  · have hkN : rs.length = N := by omega
    rw [hkN, Nat.mod_self, Nat.sub_zero, List.range_zero, List.append_nil]
    have hmap : (List.range N).map (fun j => 0 + j) = List.range N := by simp
    rw [hmap]
    exact findSome?_range_pos hN hf0

lemma GetOldest_wrap (N : Nat) (m : Mode) (rs : List BSlice) (hN : 1 ≤ N)
    (hlen : rs.length = N + 1) (hnn : rs.getD 1 none ≠ none) :
    (AddAll (mkBuff N m) rs).GetOldest = rs.getD 1 none := by
  have hne : rs ≠ [] := by
    intro h
    rw [h] at hlen
    simp at hlen
  obtain ⟨ys, z, hys, rfl⟩ : ∃ ys z, ys.length = N ∧ rs = ys ++ [z] := by
    refine ⟨rs.dropLast, rs.getLast hne, ?_, (List.dropLast_append_getLast hne).symm⟩
    rw [List.length_dropLast, hlen]
    rfl
  rw [AddAll_append]
  set b2 := AddAll (mkBuff N m) ys with hb2
  have hsize2 : b2.size = N := AddAll_size ys _
  have hptr2 : b2.ptr = 0 := by
    rw [hb2, fresh_ptr N m ys (by omega), hys, Nat.mod_self]
  have hstep : AddAll b2 [z] = b2.Add z := rfl
  rw [hstep]
  unfold Buff.GetOldest
  have hsizeA : (b2.Add z).size = N := by rw [Add_size, hsize2]
  have hptrA : (b2.Add z).ptr = 1 % N := by
    rw [Add_ptr b2 z (by omega), hptr2, hsize2, Nat.zero_add]
  have hdataA : (b2.Add z).data = b2.data.set 0 z := by
    rw [Add_data, hptr2]
  rw [hsizeA, hptrA, hdataA]
  by_cases hN1 : N = 1
  · subst hN1
    rw [Nat.mod_self, Nat.sub_zero, List.range_zero, List.append_nil]
    have hmap : (List.range 1).map (fun j => 0 + j) = List.range 1 := by simp
    rw [hmap]
    have hblen : 0 < b2.data.length := by
      rw [hb2, AddAll_data_length]
      simp [mkBuff]
    have hz : (ys ++ [z]).getD 1 none = z := by
      rw [getD_append_right (by omega), hys]
      rfl
    rw [hz] at hnn ⊢
    obtain ⟨l, hl⟩ := Option.ne_none_iff_exists'.mp hnn
    subst hl
    exact findSome?_range_pos (by omega) (by rw [getD_set_self hblen])
  · have hN2 : 2 ≤ N := by omega
    rw [Nat.mod_eq_of_lt (by omega)]
    have hrange : List.range (N - 1) = 0 :: List.map Nat.succ (List.range (N - 2)) := by
      rw [show N - 1 = (N - 2) + 1 by omega, List.range_succ_eq_map]
    rw [hrange, List.map_cons, List.cons_append]
    have hsecond : (ys ++ [z]).getD 1 none = ys.getD 1 none :=
      getD_append_left (by omega)
    have hf : (b2.data.set 0 z).getD (1 + 0) none = (ys ++ [z]).getD 1 none := by
      rw [show (1 : Nat) + 0 = 1 from rfl, getD_set_ne (by omega), hb2,
        fresh_getD_lt N m ys (by omega) 1 (by omega), hsecond]
    rw [hsecond] at hnn
    obtain ⟨l, hl⟩ := Option.ne_none_iff_exists'.mp hnn
    rw [hsecond, hl]
    rw [List.findSome?_cons_of_isSome _ (by
      show ((b2.data.set 0 z).getD (1 + 0) none).isSome = true
      rw [hf, hsecond, hl]
      rfl)]
    show (b2.data.set 0 z).getD (1 + 0) none = some l
    rw [hf, hsecond, hl]

/-! ### Reset and fresh-buffer slots -/

lemma Reset_getD (b : Buff) (i : Nat) : b.Reset.data.getD i none = none := by
  show (List.replicate b.size none).getD i none = none
  exact getD_replicate

lemma mkBuff_getD (n : Nat) (m : Mode) (i : Nat) :
    (mkBuff n m).data.getD i none = none := by
  show (List.replicate n none).getD i none = none
  exact getD_replicate

lemma Test_of_all_nil (b : Buff) (h : ∀ i, b.data.getD i none = none)
    (key : BSlice) (hk : key.getD [] ≠ []) : b.Test key = false := by
  rw [Test_eq_testOldest]
  unfold testOldest
  rw [List.any_eq_false]
  intro x _
  show ¬ (bytesEqual key (b.data.getD x none) = true)
  rw [h x]
  simpa [bytesEqual] using hk

/-! ### Mode invariance of insertions -/

lemma AddAll_set_mode : ∀ (rs : List BSlice) (b : Buff) (m : Mode),
    AddAll { b with mode := m } rs = { AddAll b rs with mode := m }
  | [], _, _ => rfl
  | r :: rs, b, m => by
      rw [AddAll_cons]
      have hstep : Buff.Add { b with mode := m } r = { b.Add r with mode := m } := rfl
      rw [hstep, AddAll_set_mode rs]
      rfl

/-! ### The claims -/

/-- C1 counterexample: on the buffer freshly created by `Init 3 Recent`, and on
a freshly reset buffer, a query for the zero-length record returns `true`:
`bytes.Equal` treats a nil (never-written) slot as equal to a zero-length key,
so the claim as stated is false. -/
theorem C1_counterexample :
    Init 3 Recent = .ok (mkBuff 3 Recent) ∧
    (mkBuff 3 Recent).Test (some []) = true ∧
    ((mkBuff 2 Oldest).Add (some [7])).Reset.Test (some []) = true :=
  ⟨rfl, by decide, by decide⟩

/-- C1 (amended): on a freshly created buffer (successful `Init`) and on a
freshly reset buffer, `Test r` is `false` for every queried record `r` whose
byte contents are nonempty; the zero-length query is excluded because
`bytes.Equal` makes it match every nil slot. -/
theorem C1_amended :
    (∀ size mode b, Init size mode = .ok b →
      ∀ r : BSlice, r.getD [] ≠ [] → b.Test r = false) ∧
    (∀ (b : Buff) (r : BSlice), r.getD [] ≠ [] → b.Reset.Test r = false) := by
  constructor
  · intro size mode b hok r hr
    unfold Init at hok
    split at hok
    · simp at hok
    · split at hok
      · simp at hok
      · injection hok with heq
        subst heq
        exact Test_of_all_nil _ (mkBuff_getD _ _) r hr
  · intro b r hr
    exact Test_of_all_nil _ (Reset_getD b) r hr

/-- Witness for C1 (amended) at concrete inputs: a nonempty record on a fresh
buffer of capacity 3, and a previously inserted nonempty record after reset. -/
theorem C1_witness :
    (mkBuff 3 Recent).Test (some [5]) = false ∧
    ((mkBuff 1 Oldest).Add (some [9])).Reset.Test (some [9]) = false :=
  ⟨C1_amended.1 3 Recent (mkBuff 3 Recent) rfl (some [5]) (by decide),
   C1_amended.2 ((mkBuff 1 Oldest).Add (some [9])) (some [9]) (by decide)⟩

/-- C2: for a buffer of size `N ≥ 1` (any mode, any prior contents), after
inserting `r0` followed by `N` further records whose byte sequences are
pairwise distinct and distinct from `r0` (distinctness in the sense of the
buffer's own equality, `bytes.Equal`), `Test r0` is `false` and `Test r` is
`true` for each of the `N` later records: the `(size+1)`-th insertion
overwrites the slot holding the oldest surviving record. -/
theorem C2_wraparound_overwrite (b : Buff) (hv : Valid b) (r0 : BSlice)
    (rs : List BSlice) (hlen : rs.length = b.size)
    (hnd : ((r0 :: rs).map (fun r => r.getD [])).Nodup) :
    (AddAll (b.Add r0) rs).Test r0 = false ∧
    ∀ r ∈ rs, (AddAll (b.Add r0) rs).Test r = true := by
  obtain ⟨hcur, hlenb⟩ := hv
  have hN : 0 < b.size := by omega
  have hvA : Valid (b.Add r0) := Valid_Add b r0 ⟨hcur, hlenb⟩
  have hv1 : Valid (AddAll (b.Add r0) rs) := Valid_AddAll rs _ hvA
  have hsize1 : (AddAll (b.Add r0) rs).size = b.size := by
    rw [AddAll_size, Add_size]
  have hAsize : (b.Add r0).size = b.size := Add_size b r0
  have hwrite : ∀ p, p < rs.length →
      (AddAll (b.Add r0) rs).data.getD
        (((b.Add r0).ptr + p) % b.size) none = rs.getD p none := by
    intro p hp
    have h := AddAll_getD_of_written rs (b.Add r0) p hp
      (by rw [hAsize, ← hlen]) hvA.2 hvA.1
    rwa [hAsize] at h
  have hnd2 := hnd
  rw [List.map_cons, List.nodup_cons] at hnd2
  constructor
  · rw [Test_eq_false_iff _ _ (Nat.le_of_lt hv1.1)]
    intro j hj
    rw [hsize1] at hj
    obtain ⟨p, hp, hpj⟩ :=
      exists_offset_of_lt (b.Add r0).ptr b.size j (hAsize ▸ hvA.1) hj
    have hslot := hwrite p (by omega)
    rw [hpj] at hslot
    rw [hslot]
    intro hcontra
    simp only [bytesEqual, decide_eq_true_eq] at hcontra
    have hmem : (rs.getD p none).getD [] ∈ rs.map (fun r => r.getD []) :=
      List.mem_map_of_mem _ (getD_mem_of_lt (by omega))
    rw [← hcontra] at hmem
    exact hnd2.1 hmem
  · intro r hr
    obtain ⟨p, hp, hpr⟩ := mem_exists_getD none hr
    rw [Test_eq_true_iff _ _ (Nat.le_of_lt hv1.1)]
    refine ⟨((b.Add r0).ptr + p) % b.size, ?_, ?_⟩
    · rw [hsize1]
      exact Nat.mod_lt _ hN
    · rw [hwrite p hp, hpr]
      simp [bytesEqual]

/-- Witness for C2: size 2, insert `[0]` then the two distinct records `[1]`,
`[2]`; afterwards `[0]` is gone and both later records are present. -/
theorem C2_witness :
    ((AddAll ((mkBuff 2 Recent).Add (some [0]))
      [some [1], some [2]]).Test (some [0]) = false) ∧
    (∀ r ∈ ([some [1], some [2]] : List BSlice),
      (AddAll ((mkBuff 2 Recent).Add (some [0]))
        [some [1], some [2]]).Test r = true) :=
  C2_wraparound_overwrite (mkBuff 2 Recent) ⟨by decide, by decide⟩ (some [0])
    [some [1], some [2]] (by decide) (by decide)

/-- C3: after any nonempty sequence of inserts whose last inserted record is
`r` (no intervening reset), `GetRecent` returns a slice byte-for-byte equal to
`r` (equality in the sense of `bytes.Equal`, the source's byte-sequence
equality): it reads the slot at `ptr - 1`, wrapping to `size - 1` when the
pointer is 0, which is the slot the most recent `Add` wrote. -/
theorem C3_most_recent (b : Buff) (hv : Valid b) (rs : List BSlice)
    (r : BSlice) : bytesEqual (AddAll b (rs ++ [r])).GetRecent r = true := by
  rw [AddAll_append]
  exact GetRecent_Add _ r (Valid_AddAll rs b hv)

/-- Witness for C3: size 2, inserts `[5]` then `[7]`; the most recent record
is byte-for-byte `[7]`. -/
theorem C3_witness :
    bytesEqual (AddAll (mkBuff 2 Recent)
      ([some [5]] ++ [some [7]])).GetRecent (some [7]) = true :=
  C3_most_recent (mkBuff 2 Recent) ⟨by decide, by decide⟩ [some [5]] (some [7])

/-- C4 counterexample: size 2, inserts nil then `[1]` (two inserts, not yet
wrapped).  The first-ever-inserted record is the nil slice, but `GetOldest`
skips nil slots and returns `[1]`, so the claim as stated is false. -/
theorem C4_counterexample :
    (AddAll (mkBuff 2 Recent) [none, some [1]]).GetOldest = some [1] ∧
    (AddAll (mkBuff 2 Recent) [none, some [1]]).GetOldest ≠
      ([none, some [1]] : List BSlice).getD 0 none := by
  refine ⟨by decide, by decide⟩

/-- C4 (amended): on a buffer of size `N` freshly created (or reset), while
the number of inserts is between 1 and `N` and the first-ever-inserted record
is not the nil slice, `GetOldest` returns that first record; immediately after
the `(N+1)`-th insert (the first wrap), provided the second-ever-inserted
record is not nil, `GetOldest` returns that second record.  The nil-record
restriction is forced because `GetOldest` cannot distinguish a stored nil from
a never-written slot. -/
theorem C4_oldest_amended (N : Nat) (m : Mode) (rs : List BSlice) :
    (1 ≤ rs.length → rs.length ≤ N → rs.getD 0 none ≠ none →
      (AddAll (mkBuff N m) rs).GetOldest = rs.getD 0 none) ∧
    (rs.length = N + 1 → 1 ≤ N → rs.getD 1 none ≠ none →
      (AddAll (mkBuff N m) rs).GetOldest = rs.getD 1 none) :=
  ⟨fun h1 h2 h3 => GetOldest_fresh N m rs h1 h2 h3,
   fun h1 h2 h3 => GetOldest_wrap N m rs h2 h1 h3⟩

/-- Witness for C4 (amended): size 2; after inserting `[1], [2]` the oldest
record is `[1]`; after a third insert `[3]` (the first wrap) it is `[2]`. -/
theorem C4_witness :
    (AddAll (mkBuff 2 Recent) [some [1], some [2]]).GetOldest = some [1] ∧
    (AddAll (mkBuff 2 Recent) [some [1], some [2], some [3]]).GetOldest =
      some [2] :=
  ⟨(C4_oldest_amended 2 Recent [some [1], some [2]]).1
      (by decide) (by decide) (by decide),
   (C4_oldest_amended 2 Recent [some [1], some [2], some [3]]).2
      (by decide) (by decide) (by decide)⟩

/-- C5: for the same fixed sequence of inserts and the same query record, the
membership test returns the same boolean under mode `Recent` (`testRecent`)
as under mode `Oldest` (`testOldest`): the mode changes only the traversal
order, never the result. -/
theorem C5_mode_invariance (N : Nat) (rs : List BSlice) (key : BSlice) :
    (AddAll (mkBuff N Recent) rs).Test key =
      (AddAll (mkBuff N Oldest) rs).Test key := by
  rw [Test_eq_testOldest, Test_eq_testOldest,
    show mkBuff N Recent = { mkBuff N Oldest with mode := Recent } from rfl,
    AddAll_set_mode]
  rfl

/-- C6 counterexample: insert the zero-length record, then `Reset`.  The claim
demands `Test x = false` for every previously inserted `x`, but the
zero-length query matches the nil slots left by `Reset` (`bytes.Equal` treats
nil as equal to a zero-length slice), so `Test` returns `true`. -/
theorem C6_counterexample :
    ((mkBuff 2 Recent).Add (some [])).Reset.Test (some []) = true := by decide

/-- C6 (amended): immediately after `Reset` the buffer is all-nil with
`ptr = 0`: `Test x` is `false` for every record `x` with nonempty byte
contents (the zero-length record is excluded because it matches nil slots),
and `GetRecent` and `GetOldest` both return nil. -/
theorem C6_reset_amended (b : Buff) (x : BSlice) :
    (x.getD [] ≠ [] → b.Reset.Test x = false) ∧
    b.Reset.GetRecent = none ∧ b.Reset.GetOldest = none ∧ b.Reset.ptr = 0 := by
  refine ⟨fun hx => Test_of_all_nil _ (Reset_getD b) x hx, ?_, ?_, rfl⟩
  · unfold Buff.GetRecent
    rw [if_pos (show b.Reset.ptr = 0 from rfl)]
    exact Reset_getD b _
  · unfold Buff.GetOldest
    exact List.findSome?_eq_none_iff.mpr (fun i _ => Reset_getD b i)

/-- Witness for C6 (amended): insert `[5]`, reset; `[5]` no longer tests as
present and both accessors return nil. -/
theorem C6_witness :
    (((mkBuff 2 Recent).Add (some [5])).Reset.Test (some [5]) = false) ∧
    ((mkBuff 2 Recent).Add (some [5])).Reset.GetRecent = none ∧
    ((mkBuff 2 Recent).Add (some [5])).Reset.GetOldest = none ∧
    ((mkBuff 2 Recent).Add (some [5])).Reset.ptr = 0 :=
  ⟨(C6_reset_amended ((mkBuff 2 Recent).Add (some [5])) (some [5])).1 (by decide),
   (C6_reset_amended ((mkBuff 2 Recent).Add (some [5])) (some [5])).2.1,
   (C6_reset_amended ((mkBuff 2 Recent).Add (some [5])) (some [5])).2.2.1,
   (C6_reset_amended ((mkBuff 2 Recent).Add (some [5])) (some [5])).2.2.2⟩

/-- C7: `Init(size, mode)` fails with `errSize` (the invalid-capacity error)
exactly when `size < 1`, fails with `errMode` (the invalid-mode error) exactly
when the size is valid but the mode is neither `Recent = 0` nor `Oldest = 1`,
and on success returns the all-nil buffer with `ptr = 0`; the two errors are
distinct failure values and the size is never silently defaulted. -/
theorem C7_construction (size : Int) (mode : Mode) :
    (Init size mode = .error .errSize ↔ size < 1) ∧
    (Init size mode = .error .errMode ↔ 1 ≤ size ∧ mode ≠ 0 ∧ mode ≠ 1) ∧
    (1 ≤ size → (mode = Recent ∨ mode = Oldest) →
      Init size mode = .ok (mkBuff size.toNat mode)) := by
  unfold Init
  by_cases h1 : size < 1
  · rw [if_pos h1]
    refine ⟨⟨fun _ => h1, fun _ => rfl⟩, ⟨fun h => ?_, fun h => ?_⟩,
      fun h2 _ => absurd h2 (by omega)⟩
    · simp at h
    · exact absurd h.1 (by omega)
  · rw [if_neg h1]
    by_cases h2 : mode ≠ 0 ∧ mode ≠ 1
    · rw [if_pos h2]
      refine ⟨⟨fun h => ?_, fun h => absurd h h1⟩,
        ⟨fun _ => ⟨by omega, h2.1, h2.2⟩, fun _ => rfl⟩, fun _ hm => ?_⟩
      · simp at h
      · cases hm with
        | inl h => exact absurd h h2.1
        | inr h => exact absurd h h2.2
    · rw [if_neg h2]
      refine ⟨⟨fun h => ?_, fun h => absurd h h1⟩,
        ⟨fun h => ?_, fun h => absurd ⟨h.2.1, h.2.2⟩ h2⟩, fun _ _ => rfl⟩
      · simp at h
      · simp at h

/-- Witness for C7: sizes 0 and -1 are rejected with `errSize`, mode tag 2 is
rejected with `errMode`, and `Init 1 Recent` succeeds with the all-nil
one-slot buffer. -/
theorem C7_witness :
    Init 0 Recent = .error .errSize ∧
    Init (-1) Oldest = .error .errSize ∧
    Init 1 2 = .error .errMode ∧
    Init 1 Recent = .ok (mkBuff 1 Recent) :=
  ⟨(C7_construction 0 Recent).1.mpr (by decide),
   (C7_construction (-1) Oldest).1.mpr (by decide),
   (C7_construction 1 2).2.1.mpr (by decide),
   (C7_construction 1 Recent).2.2 (by decide) (Or.inl rfl)⟩

/-- C8: in every state reachable from a successful `Init` via `Add` and
`Reset` (the read operations do not change state), the pointer invariant
`0 ≤ ptr < size` holds: `Init` establishes `ptr = 0`, `Add` increments the
pointer and wraps it to 0 when it reaches `size`, and `Reset` returns it
to 0. -/
theorem C8_ptr_invariant (b : Buff) (h : Reachable b) :
    0 ≤ (b.ptr : Int) ∧ b.ptr < b.size := by
  have hlt : b.ptr < b.size := by
    induction h with
    | init size mode b hok =>
        unfold Init at hok
        by_cases h1 : size < 1
        · rw [if_pos h1] at hok
          simp at hok
        · rw [if_neg h1] at hok
          by_cases h2 : mode ≠ 0 ∧ mode ≠ 1
          · rw [if_pos h2] at hok
            simp at hok
          · rw [if_neg h2] at hok
            injection hok with heq
            subst heq
            show 0 < size.toNat
            omega
    | add b r hb ih =>
        exact Add_ptr_lt b r ih
    | reset b hb ih =>
        show 0 < b.size
        omega
  exact ⟨by omega, hlt⟩

/-- Witness for C8: the invariant holds at the concrete reachable state
obtained by `Init 2 Recent` followed by one insert. -/
theorem C8_witness :
    0 ≤ (((mkBuff 2 Recent).Add (some [4])).ptr : Int) ∧
    ((mkBuff 2 Recent).Add (some [4])).ptr <
      ((mkBuff 2 Recent).Add (some [4])).size :=
  C8_ptr_invariant _
    (Reachable.add _ (some [4]) (Reachable.init 2 Recent (mkBuff 2 Recent) rfl))
